import Mathlib

/-!
Verification of the vpconnect file lifecycle engine: a shallow embedding of
the version manager (`AwsStorage.handleFileVersioning`,
`AwsStorage.getFilesByOriginalName`, `AwsStorage.getFileVersions`,
`AwsStorage.updateFileStatus`), the trash / recovery manager
(`moveFileToTrash`, `moveFolderToTrash`, `restoreFile`,
`cleanupExpiredItems`) and the shareable link manager
(`AwsStorage.createShareableLink` and the two resolution routes
`/api/shared-link/:linkId` and `/s/:linkId`), with theorems settling the
spec claims about them.

Modelling conventions: machine timestamps are integers (the trash deadlines
are counted in days, so the 60-day recovery window is literally `now + 60`);
JavaScript `undefined`/`null` attribute values become `Option`; JavaScript
string truthiness (`s ? a : b`) is the test `s ≠ ""`; the DynamoDB table is a
list of records.
-/

namespace VPConnect

/-! ## JavaScript string primitives

The source manipulates strings with `||` defaulting, `trim`, `toLowerCase`,
`includes`, regex tests and `String.prototype.replace`; these are modelled
over `List Char` so that every definition evaluates inside the kernel. -/

/-- JavaScript `a || b` on strings: the empty string is falsy. -/
def jsOr (s d : String) : String := if s = "" then d else s

/-- Lowercase a single ASCII character (model of `toLowerCase` charwise). -/
def lowerChar (c : Char) : Char :=
  if 'A' ≤ c ∧ c ≤ 'Z' then Char.ofNat (c.toNat + 32) else c

/-- Model of JavaScript `String.prototype.toLowerCase` for ASCII data. -/
def jsToLower (s : String) : String := ⟨s.toList.map lowerChar⟩

/-- Drop leading spaces from a character list. -/
def trimLeft : List Char → List Char
  | [] => []
  | c :: cs => if c = ' ' then trimLeft cs else c :: cs

/-- Model of JavaScript `String.prototype.trim` (space whitespace). -/
def jsTrim (s : String) : String := ⟨(trimLeft (trimLeft s.toList.reverse).reverse)⟩

/-- Model of JavaScript `String.prototype.includes` for a single character. -/
def containsChar (s : String) (c : Char) : Bool := s.toList.any (· = c)

/-- Model of JavaScript `haystack.includes(needle)` / DynamoDB `contains(a, b)`
on character lists. -/
def listContainsSub (hay needle : List Char) : Bool :=
  match hay with
  | [] => needle.isEmpty
  | _ :: tl => needle.isPrefixOf hay || listContainsSub tl needle

/-- Substring occurrence test on strings (DynamoDB `contains(SK, :folderId)`). -/
def strContainsSub (s sub : String) : Bool := listContainsSub s.toList sub.toList

/-- One character of the regex class `[a-f0-9]` from `restoreFile`. -/
def isHexLowerChar (c : Char) : Bool :=
  (decide ('a' ≤ c) && decide (c ≤ 'f')) || (decide ('0' ≤ c) && decide (c ≤ '9'))

/-- Model of the test `/^[a-f0-9]{32}$/.test(name)` from `restoreFile`. -/
def isHashName (s : String) : Bool :=
  s.toList.length = 32 && s.toList.all isHexLowerChar

/-- Decimal digit test used by the `parseFloat` model. -/
def isDigitChar (c : Char) : Bool := decide ('0' ≤ c) && decide (c ≤ '9')

/-- Value of a list of decimal digit characters. -/
def digitsToNat (cs : List Char) : Nat :=
  cs.foldl (fun n c => 10 * n + (c.toNat - '0'.toNat)) 0

/-- Model of `String.prototype.replace('v', '')`: drop the first occurrence of
the character `v`. -/
def dropFirstV : List Char → List Char
  | [] => []
  | c :: cs => if c = 'v' then cs else c :: dropFirstV cs

/-! ## Numeric version values

`AwsStorage.getFileVersions` sorts by
`parseFloat(String(version).replace('v', ''))`.  A parsed value
`intPart + fracNum / 10 ^ fracPow` is kept in unreduced positional form and
compared by cross-multiplication, which avoids rationals while agreeing with
the numeric order `parseFloat` induces on version labels. -/

/-- A nonnegative decimal number `intPart + fracNum / 10 ^ fracPow`, the
result of parsing a version label. -/
structure VerNum where
  intPart : Nat
  fracNum : Nat
  fracPow : Nat
deriving DecidableEq, Repr

/-- The numerator of a `VerNum` scaled by an extra power of ten, used to
compare two parsed values over a common denominator. -/
def scNum (a : VerNum) (op : Nat) : Nat :=
  a.intPart * 10 ^ (a.fracPow + op) + a.fracNum * 10 ^ op

/-- Numeric order on parsed version values. -/
def verLe (a b : VerNum) : Bool := decide (scNum a b.fracPow ≤ scNum b a.fracPow)

theorem verLe_total (a b : VerNum) : verLe a b || verLe b a := by
  simp only [verLe, Bool.or_eq_true, decide_eq_true_eq]
  exact Nat.le_total _ _

theorem verLe_trans {a b c : VerNum} (h1 : verLe a b) (h2 : verLe b c) : verLe a c := by
  simp only [verLe, decide_eq_true_eq] at *
  have key : ∀ x y : VerNum, ∀ p : Nat,
      scNum x y.fracPow * 10 ^ p = scNum x p * 10 ^ y.fracPow := by
    intro x y p
    simp only [scNum]
    ring
  have h1' : scNum a b.fracPow * 10 ^ c.fracPow ≤ scNum b a.fracPow * 10 ^ c.fracPow :=
    Nat.mul_le_mul_right _ h1
  rw [key a b, key b a] at h1'
  have hchain : scNum a c.fracPow * 10 ^ b.fracPow ≤ scNum c a.fracPow * 10 ^ b.fracPow := by
    calc scNum a c.fracPow * 10 ^ b.fracPow
        ≤ scNum b c.fracPow * 10 ^ a.fracPow := h1'
      _ ≤ scNum c b.fracPow * 10 ^ a.fracPow := Nat.mul_le_mul_right _ h2
      _ = scNum c a.fracPow * 10 ^ b.fracPow := key c b a.fracPow
  exact Nat.le_of_mul_le_mul_right hchain (Nat.pos_pow_of_pos _ (by norm_num))

/-- Model of `parseFloat(label.replace('v', ''))` on version labels: parse
leading digits, an optional decimal point and fraction digits, and ignore any
trailing garbage; `none` when the label does not start with a digit
(`parseFloat` would give `NaN`). -/
def parseVerNum (s : String) : Option VerNum :=
  let cs := dropFirstV s.toList
  let intDigits := cs.takeWhile isDigitChar
  let rest := cs.drop intDigits.length
  if intDigits.isEmpty then none
  else
    match rest with
    | '.' :: frac =>
      let fracDigits := frac.takeWhile isDigitChar
      some ⟨digitsToNat intDigits, digitsToNat fracDigits, fracDigits.length⟩
    | _ => some ⟨digitsToNat intDigits, 0, 0⟩

/-- Sort key of a version label: parsed numeric value, zero when unparsable. -/
def versionKey (s : String) : VerNum := (parseVerNum s).getD ⟨0, 0, 0⟩

/-! ## File records -/

/-- The `deletionStatus` attribute of a stored record; `unset` models a
record written without the attribute (`undefined` in the source, which every
`!== 'deleted'` filter treats like `active`). -/
inductive DelStatus where
  | unset
  | active
  | deleted
  | permanentlyDeleted
deriving DecidableEq, Repr

/-- The filter `f.deletionStatus !== 'deleted'` used throughout the source. -/
def DelStatus.notSoftDeleted : DelStatus → Bool
  | .deleted => false
  | _ => true

/-- Lifecycle-active in the spec sense (`active`, including records without
the attribute): not soft-deleted and not permanently purged. -/
def DelStatus.isLifecycleActive : DelStatus → Bool
  | .unset => true
  | .active => true
  | _ => false

/-- A file record of the `FILES` partition (`Type = "File"`). -/
structure FileRec where
  id : Nat
  name : String
  originalName : String
  projectId : Option Int := none
  taskId : Option Int := none
  parentFolderId : Option String := none
  version : String := "1.0"
  status : String := "Current"
  deletionStatus : DelStatus := .unset
  deletedAt : Option Int := none
  deletedBy : Option String := none
  scheduledDeletionAt : Option Int := none
deriving DecidableEq, Repr

/-- JavaScript `String(x)` on a nullable string attribute:
`String(undefined) = "undefined"`. -/
def jsStr : Option String → String
  | none => "undefined"
  | some s => s

/-! ## Version manager (`AwsStorage`, src/unnamed/part_003)

`handleFileVersioning` assigns a version label and status to a new upload
from the set of same-named files that are not soft-deleted; the demotion of
prior versions to `"Superseded"` is scheduled via `setImmediate` after the
upload call returns, each individual update swallowing its own errors. -/

/-- Model of `AwsStorage.getFilesByOriginalName`: scan the `FILES` partition
for records with the given `originalName`, drop records whose
`deletionStatus` is `'deleted'`, then apply the optional project / task /
folder filters (a filter runs only when the caller passed the argument). -/
def getFilesByOriginalName (store : List FileRec) (originalName : String)
    (projectId : Option Int) (taskId : Option Int) (parentFolderId : Option String) :
    List FileRec :=
  let files := store.filter (fun f => f.originalName = originalName)
  let files := files.filter (fun f => f.deletionStatus.notSoftDeleted)
  let files := match projectId with
    | none => files
    | some p => files.filter (fun f => f.projectId = some p)
  let files := match taskId with
    | none => files
    | some t => files.filter (fun f => f.taskId = some t)
  match parentFolderId with
  | none => files
  | some pf => files.filter (fun f => jsStr f.parentFolderId = pf)

/-- The upload descriptor handed to `handleFileVersioning`; `""` on
`version` / `status` models an absent (falsy) incoming value. -/
structure NewFileData where
  originalName : String := ""
  projectId : Option Int := none
  taskId : Option Int := none
  parentFolderId : Option String := none
  version : String := ""
  status : String := ""
deriving DecidableEq, Repr

/-- What `handleFileVersioning` decides for the new record: its version
label and status, the fresh-container bookkeeping fields, and the ids of the
existing records scheduled for the background `"Superseded"` flip. -/
structure VersioningOutcome where
  version : String
  status : String
  versionHistoryReset : Bool := false
  containerGeneration : Option Nat := none
  toSupersede : List Nat := []
deriving DecidableEq, Repr

/-- JavaScript truthiness adjustment of the scope arguments as
`handleFileVersioning` forwards them: `projectId ? Number(projectId) :
undefined` drops a zero or absent id, and likewise for `taskId` and an empty
`parentFolderId`. -/
def truthyInt (x : Option Int) : Option Int :=
  match x with
  | some v => if v = 0 then none else some v
  | none => none

/-- Truthiness adjustment for the optional folder scope argument. -/
def truthyStr (x : Option String) : Option String :=
  match x with
  | some v => if v = "" then none else some v
  | none => none

/-- Model of `AwsStorage.handleFileVersioning`.  Defaults are applied first
(`version || "1.0"`, `status || "Current"`); with no original name the
defaults stand.  Otherwise the same-named records that are not soft-deleted
are counted: an empty set starts a fresh container at version `"1.0"`,
generation 1; a non-empty set of size `n` yields version `"{n+1}.0"` and
schedules every member for the background `"Superseded"` update. -/
def handleFileVersioning (store : List FileRec) (nf : NewFileData) : VersioningOutcome :=
  let v0 := jsOr nf.version "1.0"
  let s0 := jsOr nf.status "Current"
  if nf.originalName = "" then
    { version := v0, status := s0 }
  else
    let existingFiles := getFilesByOriginalName store nf.originalName
      (truthyInt nf.projectId) (truthyInt nf.taskId) (truthyStr nf.parentFolderId)
    let activeFiles := existingFiles.filter (fun f => f.deletionStatus.notSoftDeleted)
    if activeFiles.isEmpty then
      { version := "1.0", status := "Current",
        versionHistoryReset := true, containerGeneration := some 1 }
    else
      { version := toString (activeFiles.length + 1) ++ ".0", status := "Current",
        toSupersede := activeFiles.map (fun f => f.id) }

/-- Model of `AwsStorage.updateFileStatus`: rewrite the status of the record
with the given id (a background operation whose store errors are logged and
swallowed). -/
def updateFileStatus (store : List FileRec) (fileId : Nat) (status : String) :
    List FileRec :=
  store.map (fun f => if f.id = fileId then { f with status := status } else f)

/-- Model of the `setImmediate` background task of `handleFileVersioning`:
flip each scheduled id to `"Superseded"`, skipping the ids whose individual
update fails (`updateError` is caught and only logged). -/
def runSupersedeTask (store : List FileRec) (ids : List Nat) (failing : List Nat) :
    List FileRec :=
  ids.foldl (fun st i => if i ∈ failing then st else updateFileStatus st i "Superseded") store

/-- The members of the upload's lineage in the spec sense: same original
filename and exactly the same project / task / folder scope. -/
def lineageOf (store : List FileRec) (nf : NewFileData) : List FileRec :=
  store.filter (fun f =>
    f.originalName = nf.originalName ∧ f.projectId = nf.projectId ∧
    f.taskId = nf.taskId ∧ f.parentFolderId = nf.parentFolderId)

/-- The lifecycle-active members of the upload's lineage (spec sense). -/
def activeLineageOf (store : List FileRec) (nf : NewFileData) : List FileRec :=
  (lineageOf store nf).filter (fun f => f.deletionStatus.isLifecycleActive)

/-! ## List-versions query (`AwsStorage.getFileVersions`) -/

/-- The per-record normalisation `getFileVersions` applies after
unmarshalling: `name` becomes `originalName || name`, `version` defaults to
`'1.0'` and `status` to `'Current'`. -/
def normalizeVersionRecord (f : FileRec) : FileRec :=
  { f with name := jsOr f.originalName f.name,
           version := jsOr f.version "1.0",
           status := jsOr f.status "Current" }

/-- Descending numeric order on version labels, the comparator
`parseFloat(b.version) - parseFloat(a.version)` of `getFileVersions`. -/
def versionDescOrder (a b : FileRec) : Prop :=
  verLe (versionKey b.version) (versionKey a.version) = true

instance : DecidableRel versionDescOrder := fun a b =>
  inferInstanceAs (Decidable (verLe (versionKey b.version) (versionKey a.version) = true))

instance : IsTotal FileRec versionDescOrder :=
  ⟨fun a b => by
    have h := verLe_total (versionKey b.version) (versionKey a.version)
    rcases Bool.or_eq_true_iff.mp h with h' | h'
    · exact Or.inl h'
    · exact Or.inr h'⟩

instance : IsTrans FileRec versionDescOrder :=
  ⟨fun _ _ _ h1 h2 => verLe_trans h2 h1⟩

/-- Model of `AwsStorage.getFileVersions`: scan the partition for records
with the given `originalName`, normalise them, drop soft-deleted records,
apply the optional scope filters (here an absent `projectId` / `taskId` on a
record compares as `0`, and the folder filter understands the literal string
`'null'` as "root"), and sort by numeric version value, latest first. -/
def getFileVersions (store : List FileRec) (originalName : String)
    (projectId : Option Int) (taskId : Option Int) (parentFolderId : Option String) :
    List FileRec :=
  let files := (store.filter (fun f => f.originalName = originalName)).map normalizeVersionRecord
  let files := files.filter (fun f => f.deletionStatus.notSoftDeleted)
  let files := match projectId with
    | none => files
    | some p => files.filter (fun f => f.projectId.getD 0 = p)
  let files := match taskId with
    | none => files
    | some t => files.filter (fun f => f.taskId.getD 0 = t)
  let files := match parentFolderId with
    | none => files
    | some pf =>
      if pf = "null" then files.filter (fun f => f.parentFolderId = none)
      else files.filter (fun f => f.parentFolderId.getD "" = pf)
  List.insertionSort versionDescOrder files

/-! ## Trash / recovery manager (src/unnamed/part_007)

`moveFileToTrash` resolves the whole "file container" of the named file —
every record sharing its original filename that is not already soft-deleted —
and stamps each one `deleted` with deleter, delete time and a purge deadline
60 days out.  Timestamps are in days. -/

/-- Model of `AwsStorage.getFile`: key lookup by id (no lifecycle filter). -/
def getFile (store : List FileRec) (id : Nat) : Option FileRec :=
  store.find? (fun f => f.id = id)

/-- The container key `file.originalName || file.name` used by the trash
scan. -/
def containerKey (f : FileRec) : String := jsOr f.originalName f.name

/-- The stamp `moveFileToTrash` writes on each container member. -/
def stampDeleted (userId : String) (now : Int) (f : FileRec) : FileRec :=
  { f with deletionStatus := .deleted, deletedAt := some now,
           deletedBy := some userId, scheduledDeletionAt := some (now + 60) }

/-- Whether a record belongs to the set `moveFileToTrash` stamps: same
`originalName` as the container key, and not already soft-deleted.  Note the
scan matches on the original filename only — no project, task or folder
condition. -/
def inTrashScope (key : String) (f : FileRec) : Bool :=
  decide (f.originalName = key) && f.deletionStatus.notSoftDeleted

/-- Model of `moveFileToTrash` (AWS path): look the named file up, scan for
every record sharing its original filename that is not soft-deleted, stamp
them all `deleted` with one purge deadline `now + 60`, and report how many
records were stamped. -/
def moveFileToTrash (store : List FileRec) (fileId : Nat) (userId : String) (now : Int) :
    Except String (List FileRec × Nat) :=
  match getFile store fileId with
  | none => .error "File not found"
  | some file =>
    let key := containerKey file
    let affected := (store.filter (inTrashScope key)).length
    .ok (store.map (fun f => if inTrashScope key f then stampDeleted userId now f else f),
         affected)

/-- Model of `restoreFile`: only a soft-deleted record may be restored; the
deletion metadata is cleared and, when the display name was corrupted to a
32-character lowercase hex hash while the original filename still contains a
dot, the display name is repaired from the original filename. -/
def restoreFile (fileQ : Option FileRec) : Except String FileRec :=
  match fileQ with
  | none => .error "File not found"
  | some file =>
    if file.deletionStatus ≠ .deleted then .error "File is not in trash"
    else
      let base := { file with deletionStatus := .active, deletedAt := none,
                              deletedBy := none, scheduledDeletionAt := none }
      if file.name ≠ "" ∧ file.originalName ≠ "" ∧ file.name ≠ file.originalName ∧
         isHashName file.name = true ∧ containsChar file.originalName '.' = true then
        .ok { base with name := file.originalName }
      else
        .ok base

/-- Model of the purge sweep `cleanupExpiredItems` on one record: a record
that is soft-deleted with a purge deadline strictly in the past becomes
`permanently_deleted`; every other record is untouched. -/
def cleanupRecord (now : Int) (f : FileRec) : FileRec :=
  if decide (f.deletionStatus = .deleted) &&
     (match f.scheduledDeletionAt with | some d => decide (d < now) | none => false) then
    { f with deletionStatus := .permanentlyDeleted }
  else f

/-- Model of `cleanupExpiredItems` over the file store. -/
def cleanupExpiredItems (store : List FileRec) (now : Int) : List FileRec :=
  store.map (cleanupRecord now)

/-! ## Folder soft-delete (`moveFolderToTrash`, src/unnamed/part_007)

The exported folder handler works on raw DynamoDB items: it puts a trash
stub under `PK = 'TRASH'`, then scans for every item whose sort key contains
the folder id as a substring and which has a `name` attribute, and
physically deletes each match. -/

/-- A raw DynamoDB item as seen by `moveFolderToTrash`. -/
structure DynItem where
  pk : String
  sk : String
  name : Option String := none
  typeAttr : String := ""
  itemId : String := ""
  parentFolderId : Option String := none
  deletionStatus : DelStatus := .unset
  deletedAt : Option Int := none
  deletedBy : Option String := none
  scheduledDeletionAt : Option Int := none
deriving DecidableEq, Repr

/-- The trash stub `moveFolderToTrash` puts before its delete scan. -/
def folderTrashStub (folderId folderName userId : String) (now : Int) : DynItem :=
  { pk := "TRASH", sk := "FOLDER#" ++ folderId, name := some folderName,
    typeAttr := "TrashItem", itemId := folderId, deletionStatus := .deleted,
    deletedAt := some now, deletedBy := some userId,
    scheduledDeletionAt := some (now + 60) }

/-- The scan filter `contains(SK, :folderId) AND attribute_exists(#name)`. -/
def folderScanMatch (folderId : String) (it : DynItem) : Bool :=
  strContainsSub it.sk folderId && it.name.isSome

/-- Model of the exported `moveFolderToTrash`: add the trash stub, then
physically delete every item the scan matches (the stub itself included,
since its own sort key contains the folder id and it has a name). -/
def moveFolderToTrash (table : List DynItem) (folderId folderName userId : String)
    (now : Int) : List DynItem :=
  (table ++ [folderTrashStub folderId folderName userId now]).filter
    (fun it => ¬ folderScanMatch folderId it)

/-! ## Shareable link manager
(`AwsStorage.createShareableLink`, src/unnamed/part_003, and the resolution
routes of src/routes.ts) -/

/-- A stored shareable link record. -/
structure LinkRec where
  id : String
  resourceType : String
  resourceId : String
  linkType : String := "view"
  isPublic : Bool := false
  password : Option String := none
  expiresAt : Option Int := none
  maxUses : Option Int := none
  currentUses : Int := 0
  isActive : Bool := true
deriving DecidableEq, Repr

/-- The caller-supplied link data reaching `createShareableLink`. -/
structure LinkInput where
  resourceType : String := ""
  resourceId : String := ""
  linkType : String := ""
  isPublic : Bool := false
  password : Option String := none
  expiresAt : Option Int := none
  maxUses : Option Int := none
  isActive : Option Bool := none
deriving DecidableEq, Repr

/-- Model of `AwsStorage.createShareableLink`: sanitise the input (type and
tier are lowercased with defaults; a falsy — empty — password becomes null,
otherwise it is trimmed; a falsy — zero — `maxUses` becomes null;
`currentUses` starts at 0; `isActive` is true unless explicitly false),
then validate the resource id and resource type. -/
def createShareableLink (linkId : String) (ld : LinkInput) : Except String LinkRec :=
  let sanitized : LinkRec :=
    { id := linkId
      resourceType := jsToLower (jsOr ld.resourceType "file")
      resourceId := ld.resourceId
      linkType := jsToLower (jsOr ld.linkType "view")
      isPublic := ld.isPublic
      password := match ld.password with
        | some p => if p = "" then none else some (jsTrim p)
        | none => none
      expiresAt := ld.expiresAt
      maxUses := match ld.maxUses with
        | some m => if m = 0 then none else some m
        | none => none
      currentUses := 0
      isActive := ld.isActive ≠ some false }
  if sanitized.resourceId = "" ∨ sanitized.resourceId = "undefined" ∨
     sanitized.resourceId = "null" then
    .error "Valid resource ID is required"
  else if ¬ (sanitized.resourceType = "file" ∨ sanitized.resourceType = "folder") then
    .error "Valid resource type (file or folder) is required"
  else
    .ok sanitized

/-- Outcome kinds of the link resolution routes. -/
inductive ResolveErr where
  | notFoundOrInactive
  | expired
  | usageLimit
  | passwordRequired
deriving DecidableEq, Repr

/-- The JSON body the API route returns on success. -/
structure ResolveResp where
  id : String
  resourceType : String
  resourceId : String
  linkType : String
  currentUses : Int
deriving DecidableEq, Repr

/-- JavaScript truthiness of the `link.expiresAt && ...` expiry guard:
present and strictly before now. -/
def linkExpired (link : LinkRec) (now : Int) : Bool :=
  match link.expiresAt with
  | some t => decide (t < now)
  | none => false

/-- JavaScript truthiness of the `link.maxUses && currentUses >= maxUses`
guard: `maxUses` present and nonzero, and the counter has reached it. -/
def linkExhausted (link : LinkRec) : Bool :=
  match link.maxUses with
  | some m => decide (m ≠ 0) && decide (link.currentUses ≥ m)
  | none => false

/-- JavaScript truthiness of the `link.password && password !== link.password`
guard of the API route: a nonempty stored password that the supplied query
value does not equal. -/
def linkPasswordRejects (link : LinkRec) (password : Option String) : Bool :=
  match link.password with
  | some p => decide (p ≠ "") && decide (password ≠ some p)
  | none => false

/-- Model of the API route `GET /api/shared-link/:linkId`: reject a missing
or inactive link, then an expired one, then an exhausted one, then a
password mismatch; otherwise persist `currentUses + 1` and answer with the
link's tier and resource reference. -/
def resolveSharedLinkApi (linkQ : Option LinkRec) (password : Option String)
    (now : Int) : Except ResolveErr (LinkRec × ResolveResp) :=
  match linkQ with
  | none => .error .notFoundOrInactive
  | some link =>
    if ¬ link.isActive then .error .notFoundOrInactive
    else if linkExpired link now then .error .expired
    else if linkExhausted link then .error .usageLimit
    else if linkPasswordRejects link password then .error .passwordRequired
    else
      .ok ({ link with currentUses := link.currentUses + 1 },
           { id := link.id, resourceType := link.resourceType,
             resourceId := link.resourceId, linkType := link.linkType,
             currentUses := link.currentUses + 1 })

/-- Model of the browser route `GET /s/:linkId`: the same missing / inactive,
expiry and usage guards — but no password check at all — then persist
`currentUses + 1` and serve the resource view or download redirect. -/
def resolveSharedLinkBrowser (linkQ : Option LinkRec) (now : Int) :
    Except ResolveErr LinkRec :=
  match linkQ with
  | none => .error .notFoundOrInactive
  | some link =>
    if ¬ link.isActive then .error .notFoundOrInactive
    else if linkExpired link now then .error .expired
    else if linkExhausted link then .error .usageLimit
    else .ok { link with currentUses := link.currentUses + 1 }

/-! ## Concrete fixtures -/

/-- A purged (permanently deleted) prior version of `plan.pdf`. -/
def purgedPlan : FileRec :=
  { id := 1, name := "plan.pdf", originalName := "plan.pdf",
    version := "3.0", status := "Superseded", deletionStatus := .permanentlyDeleted }

/-- An upload descriptor for `plan.pdf` with an unscoped lineage. -/
def uploadPlan : NewFileData := { originalName := "plan.pdf" }

/-- A soft-deleted prior version of `plan.pdf` with a high version number. -/
def softDeletedPlan : FileRec :=
  { id := 7, name := "plan.pdf", originalName := "plan.pdf",
    version := "9.0", status := "Current", deletionStatus := .deleted,
    deletedAt := some 3, deletedBy := some "u1", scheduledDeletionAt := some 63 }

/-! ## Claim C1 — fresh-container rule -/

/-- Claim C1 as stated is false: a lineage whose set of lifecycle-active
members is empty can still receive a version other than `"1.0"`, because the
versioning filter keeps permanently purged records.  Here the lineage of
`plan.pdf` holds one `permanently_deleted` record and no active member, yet
the upload is numbered `"2.0"`. -/
theorem fresh_container_counterexample :
    activeLineageOf [purgedPlan] uploadPlan = [] ∧
    (handleFileVersioning [purgedPlan] uploadPlan).version = "2.0" ∧
    (handleFileVersioning [purgedPlan] uploadPlan).version ≠ "1.0" := by
  decide

/-- Claim C1, amended: for every upload into a lineage all of whose
same-named records are soft-deleted (so the set of records that are not
soft-deleted is empty — permanently purged records, unlike soft-deleted
ones, still count toward versioning), the new record is assigned version
`"1.0"` with status current and generation 1, regardless of how many
soft-deleted versions with higher version numbers previously existed. -/
theorem fresh_container_amended (store : List FileRec) (nf : NewFileData)
    (hname : nf.originalName ≠ "")
    (hall : ∀ f ∈ store, f.originalName = nf.originalName → f.deletionStatus = .deleted) :
    (handleFileVersioning store nf).version = "1.0" ∧
    (handleFileVersioning store nf).status = "Current" ∧
    (handleFileVersioning store nf).containerGeneration = some 1 ∧
    (handleFileVersioning store nf).toSupersede = [] := by
  have hbase : (store.filter (fun f => decide (f.originalName = nf.originalName))).filter
      (fun f => f.deletionStatus.notSoftDeleted) = [] := by
    rw [List.filter_eq_nil_iff]
    intro f hf
    have hmem := List.mem_filter.mp hf
    have hdel := hall f hmem.1 (of_decide_eq_true hmem.2)
    simp [DelStatus.notSoftDeleted, hdel]
  have hempty : getFilesByOriginalName store nf.originalName
      (truthyInt nf.projectId) (truthyInt nf.taskId) (truthyStr nf.parentFolderId) = [] := by
    unfold getFilesByOriginalName
    cases truthyInt nf.projectId <;> cases truthyInt nf.taskId <;>
      cases truthyStr nf.parentFolderId <;> simp [hbase]
  unfold handleFileVersioning
  rw [if_neg hname, hempty]
  simp

/-- Witness for claim C1's amended theorem: a lineage holding only a
soft-deleted `"9.0"` record yields a fresh `"1.0"` current upload. -/
theorem fresh_container_amended_witness :
    (handleFileVersioning [softDeletedPlan] uploadPlan).version = "1.0" ∧
    (handleFileVersioning [softDeletedPlan] uploadPlan).status = "Current" ∧
    (handleFileVersioning [softDeletedPlan] uploadPlan).containerGeneration = some 1 ∧
    (handleFileVersioning [softDeletedPlan] uploadPlan).toSupersede = [] :=
  fresh_container_amended [softDeletedPlan] uploadPlan (by decide) (by decide)

/-! ## Claim C4 — version numbering on non-fresh upload -/

/-- An active `"1.0"` current version of `plan.pdf`. -/
def activePlanV1 : FileRec :=
  { id := 11, name := "plan.pdf", originalName := "plan.pdf",
    version := "1.0", status := "Current", deletionStatus := .active }

/-- The same-named records with one fixed project / task / folder scope that
are not soft-deleted: the set the versioning step of a fully scoped upload
actually counts. -/
def scopedLineageNotDeleted (store : List FileRec) (name : String) (p t : Int)
    (pf : String) : List FileRec :=
  store.filter (fun f => decide (f.originalName = name) && decide (f.projectId = some p) &&
    decide (f.taskId = some t) && decide (f.parentFolderId = some pf) &&
    f.deletionStatus.notSoftDeleted)

theorem getFilesByOriginalName_scoped (store : List FileRec) (name : String)
    (p t : Int) (pf : String) (hpfu : pf ≠ "undefined") :
    getFilesByOriginalName store name (some p) (some t) (some pf) =
      scopedLineageNotDeleted store name p t pf := by
  unfold getFilesByOriginalName scopedLineageNotDeleted
  simp only [List.filter_filter]
  apply List.filter_congr
  intro f _
  rw [Bool.eq_iff_iff]
  simp only [Bool.and_eq_true, decide_eq_true_eq]
  cases hfp : f.parentFolderId with
  | none =>
    simp only [jsStr]
    have h1 : ¬ ("undefined" = pf) := fun h => hpfu h.symm
    have h2 : ¬ ((none : Option String) = some pf) := by simp
    tauto
  | some s =>
    simp only [jsStr, Option.some.injEq]
    tauto

/-- The effect of one background status update on one record. -/
def supersedeMark (ids failing : List Nat) (f : FileRec) : FileRec :=
  if f.id ∈ ids ∧ f.id ∉ failing then { f with status := "Superseded" } else f

theorem runSupersedeTask_eq (ids failing : List Nat) (store : List FileRec) :
    runSupersedeTask store ids failing = store.map (supersedeMark ids failing) := by
  induction ids generalizing store with
  | nil =>
    have h : ∀ a ∈ store, supersedeMark [] failing a = a := by
      intro a _
      simp [supersedeMark]
    simp only [runSupersedeTask, List.foldl_nil]
    rw [List.map_congr_left h]
    simp
  | cons i rest ih =>
    show List.foldl _ _ (i :: rest) = _
    rw [List.foldl_cons]
    by_cases hfail : i ∈ failing
    · rw [if_pos hfail]
      rw [show List.foldl _ store rest = runSupersedeTask store rest failing from rfl, ih]
      apply List.map_congr_left
      intro f _
      by_cases hid : f.id = i
      · simp [supersedeMark, hid, hfail]
      · simp [supersedeMark, List.mem_cons, hid]
    · rw [if_neg hfail]
      rw [show List.foldl _ (updateFileStatus store i "Superseded") rest =
            runSupersedeTask (updateFileStatus store i "Superseded") rest failing from rfl, ih]
      unfold updateFileStatus
      rw [List.map_map]
      apply List.map_congr_left
      intro f _
      by_cases hid : f.id = i
      · simp only [Function.comp_apply, if_pos (show f.id = i from hid)]
        have : ({ f with status := "Superseded" } : FileRec).id = f.id := rfl
        simp [supersedeMark, this, hid, List.mem_cons, hfail]
      · simp only [Function.comp_apply, if_neg (show ¬ f.id = i from hid)]
        simp [supersedeMark, List.mem_cons, hid]

/-- Claim C4 as stated is false: with a non-empty active set the version is
not `"{activeCount+1}.0"` whenever the lineage also holds permanently purged
records, because the versioning filter keeps them.  Here the lineage of
`plan.pdf` has exactly one active member, yet the upload is numbered
`"3.0"`, not `"2.0"`. -/
theorem version_numbering_counterexample :
    (activeLineageOf [activePlanV1, purgedPlan] uploadPlan).length = 1 ∧
    (handleFileVersioning [activePlanV1, purgedPlan] uploadPlan).version = "3.0" ∧
    (handleFileVersioning [activePlanV1, purgedPlan] uploadPlan).version ≠ "2.0" := by
  decide

/-- Claim C4, amended: for every fully scoped upload whose set of same-name,
same-scope records that are not soft-deleted (permanently purged records
included, lifecycle-active ones in particular) is non-empty, the new record
is assigned version `"{count+1}.0"` — `count` being the size of that set —
with status current; every member of that set is scheduled for the
background superseded flip, and the background task marks each scheduled
record whose individual update does not fail, independently of the failures
of the others (an individual failure is logged and swallowed, never
propagated to the upload). -/
theorem version_numbering_amended (store : List FileRec) (nf : NewFileData)
    (p t : Int) (pf : String)
    (hp : nf.projectId = some p) (hp0 : p ≠ 0)
    (ht : nf.taskId = some t) (ht0 : t ≠ 0)
    (hpf : nf.parentFolderId = some pf) (hpf0 : pf ≠ "") (hpfu : pf ≠ "undefined")
    (hname : nf.originalName ≠ "")
    (hne : scopedLineageNotDeleted store nf.originalName p t pf ≠ []) :
    (handleFileVersioning store nf).version =
      toString ((scopedLineageNotDeleted store nf.originalName p t pf).length + 1) ++ ".0" ∧
    (handleFileVersioning store nf).status = "Current" ∧
    (handleFileVersioning store nf).toSupersede =
      (scopedLineageNotDeleted store nf.originalName p t pf).map (fun f => f.id) ∧
    ∀ failing : List Nat, ∀ f ∈ scopedLineageNotDeleted store nf.originalName p t pf,
      f.id ∉ failing →
      ({ f with status := "Superseded" } : FileRec) ∈
        runSupersedeTask store ((handleFileVersioning store nf).toSupersede) failing := by
  have htr : truthyInt nf.projectId = some p := by
    rw [hp]; simp [truthyInt, hp0]
  have htt : truthyInt nf.taskId = some t := by
    rw [ht]; simp [truthyInt, ht0]
  have htpf : truthyStr nf.parentFolderId = some pf := by
    rw [hpf]; simp [truthyStr, hpf0]
  have hmemall : ∀ f ∈ scopedLineageNotDeleted store nf.originalName p t pf,
      f.deletionStatus.notSoftDeleted = true := by
    intro f hf
    have := (List.mem_filter.mp hf).2
    simp only [Bool.and_eq_true] at this
    exact this.2
  have hactive : (getFilesByOriginalName store nf.originalName
        (truthyInt nf.projectId) (truthyInt nf.taskId) (truthyStr nf.parentFolderId)).filter
        (fun f => f.deletionStatus.notSoftDeleted) =
      scopedLineageNotDeleted store nf.originalName p t pf := by
    rw [htr, htt, htpf, getFilesByOriginalName_scoped store nf.originalName p t pf hpfu]
    exact List.filter_eq_self.mpr hmemall
  have houtcome : handleFileVersioning store nf =
      { version := toString ((scopedLineageNotDeleted store nf.originalName p t pf).length + 1) ++ ".0",
        status := "Current",
        toSupersede := (scopedLineageNotDeleted store nf.originalName p t pf).map (fun f => f.id) } := by
    unfold handleFileVersioning
    rw [if_neg hname]
    simp only [hactive]
    rw [if_neg (by simpa [List.isEmpty_iff] using hne)]
  refine ⟨by rw [houtcome], by rw [houtcome], by rw [houtcome], ?_⟩
  intro failing f hf hnotfail
  rw [houtcome]
  show ({ f with status := "Superseded" } : FileRec) ∈ runSupersedeTask store _ failing
  rw [runSupersedeTask_eq]
  have hfstore : f ∈ store := (List.mem_filter.mp hf).1
  have hfid : f.id ∈ (scopedLineageNotDeleted store nf.originalName p t pf).map
      (fun f => f.id) := List.mem_map_of_mem _ hf
  have hmark : supersedeMark ((scopedLineageNotDeleted store nf.originalName p t pf).map
      (fun f => f.id)) failing f = { f with status := "Superseded" } := by
    simp [supersedeMark, hfid, hnotfail]
  exact hmark ▸ List.mem_map_of_mem _ hfstore

/-- A fully scoped active current record used by the C4 witness. -/
def scopedPlan : FileRec :=
  { id := 21, name := "plan.pdf", originalName := "plan.pdf",
    projectId := some 5, taskId := some 2, parentFolderId := some "F",
    version := "1.0", status := "Current", deletionStatus := .active }

/-- A fully scoped upload descriptor for `plan.pdf` used by the C4 witness. -/
def scopedUpload : NewFileData :=
  { originalName := "plan.pdf", projectId := some 5, taskId := some 2,
    parentFolderId := some "F" }

/-- Witness for claim C4's amended theorem: one active member in scope, so
the upload becomes `"2.0"` and the member is flipped to superseded when the
background task runs without failures. -/
theorem version_numbering_amended_witness :
    (handleFileVersioning [scopedPlan] scopedUpload).version = "2.0" ∧
    ({ scopedPlan with status := "Superseded" } : FileRec) ∈
      runSupersedeTask [scopedPlan]
        ((handleFileVersioning [scopedPlan] scopedUpload).toSupersede) [] := by
  have h := version_numbering_amended [scopedPlan] scopedUpload 5 2 "F"
    rfl (by decide) rfl (by decide) rfl (by decide) (by decide) (by decide) (by decide)
  refine ⟨?_, ?_⟩
  · rw [h.1]
    decide
  · exact h.2.2.2 [] scopedPlan (by decide) (by decide)

/-! ## Claim C2 — container-atomicity of soft-delete -/

/-- An active `plan.pdf` in project 1. -/
def planProj1 : FileRec :=
  { id := 1, name := "plan.pdf", originalName := "plan.pdf",
    projectId := some 1, version := "1.0", status := "Current",
    deletionStatus := .active }

/-- An active `plan.pdf` in a different project (outside the lineage of
`planProj1`). -/
def planProj2 : FileRec :=
  { id := 2, name := "plan.pdf", originalName := "plan.pdf",
    projectId := some 2, version := "1.0", status := "Current",
    deletionStatus := .active }

/-- Claim C2 as stated is false: the trash scan matches on the original
filename alone, with no project / task / folder condition, so soft-deleting
`plan.pdf` of project 1 also stamps the same-named file of project 2 — a
record outside the lineage — and reports both in the count. -/
theorem container_atomicity_counterexample :
    planProj2.projectId ≠ planProj1.projectId ∧
    moveFileToTrash [planProj1, planProj2] 1 "u1" 0 =
      .ok ([stampDeleted "u1" 0 planProj1, stampDeleted "u1" 0 planProj2], 2) ∧
    (stampDeleted "u1" 0 planProj2).deletionStatus = .deleted := by
  refine ⟨by decide, ?_, by decide⟩
  show Except.ok _ = _
  rw [Except.ok.injEq]
  decide

/-- Claim C2, amended: soft-deleting any one version stamps every stored
record sharing its original filename that is not already soft-deleted —
across all project / task / folder scopes, so including every
lifecycle-active member of the named file's own lineage, but also same-named
files of other scopes — with lifecycle status deleted, the deleter's
identity, the delete timestamp, and one identical purge deadline equal to
the delete time plus 60 days; records outside that same-name set are left
unchanged, and the count of stamped records is returned. -/
theorem container_atomicity_amended (store : List FileRec) (fileId : Nat)
    (userId : String) (now : Int) (file : FileRec)
    (hfind : getFile store fileId = some file) :
    ∃ store2 n, moveFileToTrash store fileId userId now = .ok (store2, n) ∧
      n = (store.filter (inTrashScope (containerKey file))).length ∧
      store2 = store.map (fun f =>
        if inTrashScope (containerKey file) f then stampDeleted userId now f else f) ∧
      (∀ f ∈ store, inTrashScope (containerKey file) f = true →
        stampDeleted userId now f ∈ store2 ∧
        (stampDeleted userId now f).deletionStatus = .deleted ∧
        (stampDeleted userId now f).deletedBy = some userId ∧
        (stampDeleted userId now f).deletedAt = some now ∧
        (stampDeleted userId now f).scheduledDeletionAt = some (now + 60)) ∧
      (∀ f ∈ store, f.originalName = file.originalName → file.originalName ≠ "" →
        f.deletionStatus.isLifecycleActive = true →
        stampDeleted userId now f ∈ store2) ∧
      (∀ f ∈ store, inTrashScope (containerKey file) f = false → f ∈ store2) := by
  refine ⟨store.map (fun f =>
      if inTrashScope (containerKey file) f then stampDeleted userId now f else f),
    (store.filter (inTrashScope (containerKey file))).length, ?_, rfl, rfl, ?_, ?_, ?_⟩
  · unfold moveFileToTrash
    rw [hfind]
  · intro f hf hscope
    refine ⟨?_, rfl, rfl, rfl, rfl⟩
    have hmem := List.mem_map_of_mem
      (fun f => if inTrashScope (containerKey file) f then stampDeleted userId now f else f) hf
    simpa [hscope] using hmem
  · intro f hf hname hne hactive
    have hscope : inTrashScope (containerKey file) f = true := by
      have hkey : containerKey file = file.originalName := by
        unfold containerKey jsOr
        rw [if_neg hne]
      rw [hkey]
      unfold inTrashScope
      rw [hname]
      cases hds : f.deletionStatus with
      | unset => simp [DelStatus.notSoftDeleted]
      | active => simp [DelStatus.notSoftDeleted]
      | deleted => rw [hds] at hactive; simp [DelStatus.isLifecycleActive] at hactive
      | permanentlyDeleted =>
        rw [hds] at hactive; simp [DelStatus.isLifecycleActive] at hactive
    have hmem := List.mem_map_of_mem
      (fun f => if inTrashScope (containerKey file) f then stampDeleted userId now f else f) hf
    simpa [hscope] using hmem
  · intro f hf hscope
    have hmem := List.mem_map_of_mem
      (fun f => if inTrashScope (containerKey file) f then stampDeleted userId now f else f) hf
    simpa [hscope] using hmem

/-- Witness for claim C2's amended theorem: soft-deleting `planProj1` stamps
it deleted with deadline 60 and keeps the stamped record in the store. -/
theorem container_atomicity_amended_witness :
    ∃ store2 n, moveFileToTrash [planProj1] 1 "u1" 0 = .ok (store2, n) ∧
      stampDeleted "u1" 0 planProj1 ∈ store2 ∧
      (stampDeleted "u1" 0 planProj1).scheduledDeletionAt = some 60 := by
  obtain ⟨store2, n, hok, -, -, hstamp, -, -⟩ :=
    container_atomicity_amended [planProj1] 1 "u1" 0 planProj1 (by decide)
  exact ⟨store2, n, hok, (hstamp planProj1 (by decide) (by decide)).1, by decide⟩

/-! ## Claim C5 — purge monotonicity -/

/-- A permanently purged `"2.0"` version sharing `plan.pdf`'s lineage. -/
def purgedMate : FileRec :=
  { id := 3, name := "plan.pdf", originalName := "plan.pdf",
    version := "2.0", status := "Superseded", deletionStatus := .permanentlyDeleted }

/-- Claim C5 as stated is false: the soft-delete operation does transition a
record out of `permanently_deleted`.  The container scan keeps every record
that is not soft-deleted — purged records included — so soft-deleting the
active `plan.pdf` re-stamps its purged lineage mate back to `deleted`. -/
theorem purge_monotonicity_counterexample :
    purgedMate.deletionStatus = .permanentlyDeleted ∧
    moveFileToTrash [activePlanV1, purgedMate] 11 "u1" 0 =
      .ok ([stampDeleted "u1" 0 activePlanV1, stampDeleted "u1" 0 purgedMate], 2) ∧
    (stampDeleted "u1" 0 purgedMate).deletionStatus = .deleted := by
  refine ⟨by decide, ?_, by decide⟩
  show Except.ok _ = _
  rw [Except.ok.injEq]
  decide

theorem cleanupRecord_idem (now : Int) (f : FileRec) :
    cleanupRecord now (cleanupRecord now f) = cleanupRecord now f := by
  unfold cleanupRecord
  split_ifs with h1 h2
  · simp at h2
  · rfl
  · rfl

/-- Claim C5, amended: restore and the purge sweep never transition a record
out of `permanently_deleted` — restore rejects a purged record with an error
and the sweep leaves it untouched — and the sweep changes a record only when
its status is `deleted` and its `scheduledDeletionAt` deadline is strictly in
the past, so re-running the sweep is a no-op; the soft-delete operation,
however, does re-stamp a purged record of the container back to `deleted`
(the counterexample). -/
theorem purge_monotonicity_amended :
    (∀ f : FileRec, f.deletionStatus = .permanentlyDeleted →
       restoreFile (some f) = .error "File is not in trash") ∧
    (∀ (now : Int) (f : FileRec), f.deletionStatus = .permanentlyDeleted →
       cleanupRecord now f = f) ∧
    (∀ (now : Int) (f : FileRec), cleanupRecord now f ≠ f →
       f.deletionStatus = .deleted ∧
       ∃ d, f.scheduledDeletionAt = some d ∧ d < now) ∧
    (∀ (store : List FileRec) (now : Int),
       cleanupExpiredItems (cleanupExpiredItems store now) now =
         cleanupExpiredItems store now) := by
  refine ⟨?_, ?_, ?_, ?_⟩
  · intro f h
    simp [restoreFile, h]
  · intro now f h
    unfold cleanupRecord
    rw [if_neg (by simp [h])]
  · intro now f hne
    unfold cleanupRecord at hne
    split_ifs at hne with h
    · simp only [Bool.and_eq_true, decide_eq_true_eq] at h
      refine ⟨h.1, ?_⟩
      cases hd : f.scheduledDeletionAt with
      | none => rw [hd] at h; simp at h
      | some d =>
        rw [hd] at h
        exact ⟨d, rfl, by simpa using h.2⟩
    · exact absurd rfl hne
  · intro store now
    unfold cleanupExpiredItems
    rw [List.map_map]
    apply List.map_congr_left
    intro f _
    exact cleanupRecord_idem now f

/-- Witness for claim C5's amended theorem: the purged record `purgedMate`
cannot be restored and is untouched by the sweep. -/
theorem purge_monotonicity_amended_witness :
    restoreFile (some purgedMate) = .error "File is not in trash" ∧
    cleanupRecord 99 purgedMate = purgedMate :=
  ⟨purge_monotonicity_amended.1 purgedMate (by decide),
   purge_monotonicity_amended.2.1 99 purgedMate (by decide)⟩

/-! ## Claim C6 — folder soft-delete cascade -/

/-- The stored record of folder 777. -/
def folderRec777 : DynItem :=
  { pk := "FOLDERS", sk := "FOLDER#777", name := some "Docs",
    typeAttr := "Folder", itemId := "777" }

/-- An active file stored inside folder 777. -/
def fileInFolder777 : DynItem :=
  { pk := "FILES", sk := "FILE#42", name := some "a.pdf",
    typeAttr := "File", itemId := "42", parentFolderId := some "777",
    deletionStatus := .unset }

/-- Claim C6 is right and the code is wrong: the exported `moveFolderToTrash`
physically deletes every item whose sort key contains the folder id (the
folder record, and even the trash stub it has just written), and never stamps
the files contained in the folder — their sort keys do not contain the folder
id, so the scan misses them and they keep their lifecycle status with no
purge deadline.  This contradicts the function's own documentation
("Moves folder to trash with 60-day recovery period") and `restoreFolder`,
which expects soft-deleted records to still exist. -/
theorem folder_cascade_code_bug :
    moveFolderToTrash [folderRec777, fileInFolder777] "777" "Docs" "u1" 0 =
      [fileInFolder777] ∧
    fileInFolder777.parentFolderId = some "777" ∧
    fileInFolder777.deletionStatus ≠ .deleted ∧
    fileInFolder777.scheduledDeletionAt = none ∧
    folderRec777 ∉ moveFolderToTrash [folderRec777, fileInFolder777] "777" "Docs" "u1" 0 ∧
    folderTrashStub "777" "Docs" "u1" 0 ∉
      moveFolderToTrash [folderRec777, fileInFolder777] "777" "Docs" "u1" 0 := by
  decide

/-! ## Claim C7 — restore contract -/

theorem hashName_ne_dotName {n o : String} (hn : isHashName n = true)
    (ho : containsChar o '.' = true) : n ≠ o ∧ n ≠ "" ∧ o ≠ "" := by
  have hn' := hn
  simp only [isHashName, Bool.and_eq_true, decide_eq_true_eq] at hn'
  refine ⟨?_, ?_, ?_⟩
  · rintro rfl
    simp only [containsChar, List.any_eq_true, decide_eq_true_eq] at ho
    obtain ⟨c, hc, rfl⟩ := ho
    have hhex := List.all_eq_true.mp hn'.2 _ hc
    exact absurd hhex (by decide)
  · rintro rfl
    exact absurd hn (by decide)
  · rintro rfl
    exact absurd ho (by decide)

/-- Claim C7: restoring a missing file or one whose lifecycle status is not
`deleted` fails with an error and changes nothing; restoring a soft-deleted
file yields status `active` with the deleted-at, deleted-by and
scheduled-purge fields cleared, and whenever the display name is an opaque
32-character lowercase hex hash while the original filename contains a dot,
the display name is set to the original filename (otherwise it is kept). -/
theorem restore_contract :
    (restoreFile none = .error "File not found") ∧
    (∀ f : FileRec, f.deletionStatus ≠ .deleted →
       restoreFile (some f) = .error "File is not in trash") ∧
    (∀ f : FileRec, f.deletionStatus = .deleted →
       ∃ g, restoreFile (some f) = .ok g ∧
         g.deletionStatus = .active ∧ g.deletedAt = none ∧ g.deletedBy = none ∧
         g.scheduledDeletionAt = none ∧ g.id = f.id ∧
         g.originalName = f.originalName ∧ g.version = f.version ∧
         g.status = f.status ∧
         ((isHashName f.name = true ∧ containsChar f.originalName '.' = true) →
            g.name = f.originalName) ∧
         (¬ (f.name ≠ "" ∧ f.originalName ≠ "" ∧ f.name ≠ f.originalName ∧
             isHashName f.name = true ∧ containsChar f.originalName '.' = true) →
            g.name = f.name)) := by
  refine ⟨rfl, ?_, ?_⟩
  · intro f h
    simp [restoreFile, h]
  · intro f h
    by_cases hfix : f.name ≠ "" ∧ f.originalName ≠ "" ∧ f.name ≠ f.originalName ∧
        isHashName f.name = true ∧ containsChar f.originalName '.' = true
    · refine ⟨{ f with
          deletionStatus := .active, deletedAt := none, deletedBy := none,
          scheduledDeletionAt := none, name := f.originalName }, ?_,
        rfl, rfl, rfl, rfl, rfl, rfl, rfl, rfl, fun _ => rfl, fun hc => absurd hfix hc⟩
      simp only [restoreFile]
      rw [if_neg (by simp [h]), if_pos hfix]
    · refine ⟨{ f with
          deletionStatus := .active, deletedAt := none, deletedBy := none,
          scheduledDeletionAt := none }, ?_,
        rfl, rfl, rfl, rfl, rfl, rfl, rfl, rfl, ?_, fun _ => rfl⟩
      · simp only [restoreFile]
        rw [if_neg (by simp [h]), if_neg hfix]
      · intro hc
        have hd := hashName_ne_dotName hc.1 hc.2
        exact absurd ⟨hd.2.1, hd.2.2, hd.1, hc.1, hc.2⟩ hfix

/-- The scenario D record: display name corrupted to an opaque hash while
the original filename is intact, soft-deleted and awaiting restore. -/
def corruptedNameFile : FileRec :=
  { id := 9, name := "aabbccddeeff00112233445566778899",
    originalName := "site-plan.dwg", version := "1.0", status := "Current",
    deletionStatus := .deleted, deletedAt := some 1, deletedBy := some "u1",
    scheduledDeletionAt := some 61 }

/-- Witness for claim C7's theorem: restoring the scenario D record yields an
active record whose display name equals the original filename. -/
theorem restore_contract_witness :
    ∃ g, restoreFile (some corruptedNameFile) = .ok g ∧
      g.deletionStatus = .active ∧ g.name = "site-plan.dwg" := by
  obtain ⟨g, hok, hact, -, -, -, -, -, -, -, hfix, -⟩ :=
    restore_contract.2.2 corruptedNameFile (by decide)
  refine ⟨g, hok, hact, ?_⟩
  rw [hfix ⟨by decide, by decide⟩]
  decide

/-! ## Claim C9 — list-versions contract -/

/-- The unsorted record pool `getFileVersions` feeds into its final sort:
the same-named records, normalised, minus the soft-deleted ones, restricted
to the requested scope (both current and superseded survive — there is no
status filter). -/
def listVersionsPool (store : List FileRec) (originalName : String)
    (projectId : Option Int) (taskId : Option Int) (parentFolderId : Option String) :
    List FileRec :=
  let files := (store.filter (fun f => f.originalName = originalName)).map normalizeVersionRecord
  let files := files.filter (fun f => f.deletionStatus.notSoftDeleted)
  let files := match projectId with
    | none => files
    | some p => files.filter (fun f => f.projectId.getD 0 = p)
  let files := match taskId with
    | none => files
    | some t => files.filter (fun f => f.taskId.getD 0 = t)
  match parentFolderId with
  | none => files
  | some pf =>
    if pf = "null" then files.filter (fun f => f.parentFolderId = none)
    else files.filter (fun f => f.parentFolderId.getD "" = pf)

theorem getFileVersions_eq_sort (store : List FileRec) (originalName : String)
    (projectId : Option Int) (taskId : Option Int) (parentFolderId : Option String) :
    getFileVersions store originalName projectId taskId parentFolderId =
      List.insertionSort versionDescOrder
        (listVersionsPool store originalName projectId taskId parentFolderId) := rfl

theorem mem_pool_notSoftDeleted {store : List FileRec} {name : String}
    {p tsk : Option Int} {pf : Option String} {f : FileRec}
    (hf : f ∈ listVersionsPool store name p tsk pf) :
    f.deletionStatus.notSoftDeleted = true := by
  unfold listVersionsPool at hf
  rcases p with _ | pv <;> rcases tsk with _ | tv <;> rcases pf with _ | pfv <;>
    (try dsimp only [] at hf) <;>
    (try split at hf) <;>
    (repeat
      first
      | exact (List.mem_filter.mp hf).2
      | replace hf := List.mem_of_mem_filter hf)

/-- Claim C9 as stated is false in one respect: the query does not return
exactly the lifecycle-active members — permanently purged records pass its
`!== 'deleted'` filter and are listed too.  Here the lineage's only record
is `permanently_deleted`, yet the query returns it. -/
theorem list_versions_counterexample :
    getFileVersions [purgedPlan] "plan.pdf" none none none =
      [normalizeVersionRecord purgedPlan] ∧
    (normalizeVersionRecord purgedPlan).deletionStatus = .permanentlyDeleted ∧
    (normalizeVersionRecord purgedPlan).deletionStatus.isLifecycleActive = false := by
  decide

/-- Claim C9, amended: for every lineage key, the query returns exactly the
members that are not soft-deleted — current and superseded records alike,
but also permanently purged ones — as a permutation of the scope-filtered
pool, sorted by version descending under numeric comparison of the parsed
version value (so `"10.0"` sorts above `"2.0"` even though the character
sequence of `"10.0"` is lexicographically smaller); soft-deleted records
never appear. -/
theorem list_versions_amended (store : List FileRec) (name : String)
    (p tsk : Option Int) (pf : Option String) :
    (getFileVersions store name p tsk pf).Perm (listVersionsPool store name p tsk pf) ∧
    List.Sorted versionDescOrder (getFileVersions store name p tsk pf) ∧
    (∀ f ∈ getFileVersions store name p tsk pf, f.deletionStatus ≠ .deleted) ∧
    verLe (versionKey "2.0") (versionKey "10.0") = true ∧
    "10.0".toList < "2.0".toList := by
  refine ⟨?_, ?_, ?_, by decide, by decide⟩
  · rw [getFileVersions_eq_sort]
    exact List.perm_insertionSort versionDescOrder _
  · rw [getFileVersions_eq_sort]
    exact List.sorted_insertionSort versionDescOrder _
  · intro f hf
    have hfp : f ∈ listVersionsPool store name p tsk pf :=
      (List.perm_insertionSort versionDescOrder _).subset
        (by rw [getFileVersions_eq_sort] at hf; exact hf)
    have hns := mem_pool_notSoftDeleted hfp
    intro hEq
    rw [hEq] at hns
    simp [DelStatus.notSoftDeleted] at hns

/-- A superseded `"10.0"` version of `plan.pdf` used by the C9 witness. -/
def planV10 : FileRec :=
  { id := 31, name := "plan.pdf", originalName := "plan.pdf",
    version := "10.0", status := "Superseded", deletionStatus := .active }

/-- A current `"2.0"` version of `plan.pdf` used by the C9 witness. -/
def planV2 : FileRec :=
  { id := 32, name := "plan.pdf", originalName := "plan.pdf",
    version := "2.0", status := "Current", deletionStatus := .active }

/-- Witness for claim C9's amended theorem: on a concrete two-version
lineage the query's output is sorted (numeric order, `"10.0"` first) and a
returned member is not soft-deleted. -/
theorem list_versions_amended_witness :
    List.Sorted versionDescOrder (getFileVersions [planV2, planV10] "plan.pdf" none none none) ∧
    (normalizeVersionRecord planV10).deletionStatus ≠ .deleted :=
  ⟨(list_versions_amended [planV2, planV10] "plan.pdf" none none none).2.1,
   (list_versions_amended [planV2, planV10] "plan.pdf" none none none).2.2.1
     (normalizeVersionRecord planV10) (by decide)⟩

/-! ## Claim C3 — link resolution contract -/

theorem resolveApi_ok_iff (link : LinkRec) (pw : Option String) (now : Int) :
    (∃ l r, resolveSharedLinkApi (some link) pw now = .ok (l, r)) ↔
      (link.isActive = true ∧ linkExpired link now = false ∧
       linkExhausted link = false ∧ linkPasswordRejects link pw = false) := by
  unfold resolveSharedLinkApi
  by_cases ha : link.isActive = true <;> by_cases he : linkExpired link now = true <;>
    by_cases hu : linkExhausted link = true <;>
    by_cases hp : linkPasswordRejects link pw = true <;>
    simp_all

theorem resolveApi_ok_elim (link : LinkRec) (pw : Option String) (now : Int)
    (l : LinkRec) (r : ResolveResp)
    (h : resolveSharedLinkApi (some link) pw now = .ok (l, r)) :
    l = { link with currentUses := link.currentUses + 1 } ∧
    r = { id := link.id, resourceType := link.resourceType,
          resourceId := link.resourceId, linkType := link.linkType,
          currentUses := link.currentUses + 1 } := by
  unfold resolveSharedLinkApi at h
  dsimp only [] at h
  split_ifs at h
  rw [Except.ok.injEq, Prod.mk.injEq] at h
  exact ⟨h.1.symm, h.2.symm⟩

theorem linkExpired_false_iff (link : LinkRec) (now : Int) :
    linkExpired link now = false ↔ ∀ t, link.expiresAt = some t → ¬ t < now := by
  cases he : link.expiresAt <;> simp [linkExpired, he]

theorem linkExhausted_false_iff (link : LinkRec) (hmax : link.maxUses ≠ some 0) :
    linkExhausted link = false ↔ ∀ m, link.maxUses = some m → link.currentUses < m := by
  cases hm : link.maxUses with
  | none => simp [linkExhausted, hm]
  | some m =>
    have hm0 : m ≠ 0 := by
      rintro rfl
      exact hmax hm
    simp [linkExhausted, hm, hm0, not_le]

theorem linkPasswordRejects_false_iff (link : LinkRec) (pw : Option String)
    (hpwv : link.password ≠ some "") :
    linkPasswordRejects link pw = false ↔ ∀ p, link.password = some p → pw = some p := by
  cases hp : link.password with
  | none => simp [linkPasswordRejects, hp]
  | some p =>
    have hp0 : p ≠ "" := by
      rintro rfl
      exact hpwv hp
    simp [linkPasswordRejects, hp, hp0]

/-- Claim C3: for every stored shareable link (whose sanitised `maxUses` is
never the falsy 0 and whose set password is nonempty) and optional supplied
password, API resolution fails when the link is missing or inactive, when
`expiresAt` is set and strictly in the past, when `maxUses` is set and
`currentUses` has reached it, or when a password is set and the supplied one
differs; in every other case it succeeds, persists `currentUses + 1`, and
returns the link's permission tier and resource reference with the bumped
counter. -/
theorem link_resolution_contract (link : LinkRec) (pw : Option String) (now : Int)
    (hmax : link.maxUses ≠ some 0) (hpwv : link.password ≠ some "") :
    (resolveSharedLinkApi none pw now = .error .notFoundOrInactive) ∧
    ((∃ l r, resolveSharedLinkApi (some link) pw now = .ok (l, r)) ↔
      (link.isActive = true ∧
       (∀ t, link.expiresAt = some t → ¬ t < now) ∧
       (∀ m, link.maxUses = some m → link.currentUses < m) ∧
       (∀ p, link.password = some p → pw = some p))) ∧
    (∀ l r, resolveSharedLinkApi (some link) pw now = .ok (l, r) →
       l = { link with currentUses := link.currentUses + 1 } ∧
       r = { id := link.id, resourceType := link.resourceType,
             resourceId := link.resourceId, linkType := link.linkType,
             currentUses := link.currentUses + 1 }) := by
  refine ⟨rfl, ?_, fun l r h => resolveApi_ok_elim link pw now l r h⟩
  rw [resolveApi_ok_iff link pw now, linkExpired_false_iff link now,
    linkExhausted_false_iff link hmax, linkPasswordRejects_false_iff link pw hpwv]

/-- A live password-protected link with a usage cap. -/
def cappedLink : LinkRec :=
  { id := "L3", resourceType := "file", resourceId := "42",
    linkType := "download", password := some "s3cret", expiresAt := none,
    maxUses := some 5, currentUses := 0, isActive := true }

/-- Witness for claim C3's theorem: resolving `cappedLink` with the right
password succeeds. -/
theorem link_resolution_contract_witness :
    ∃ l r, resolveSharedLinkApi (some cappedLink) (some "s3cret") 10 = .ok (l, r) :=
  (link_resolution_contract cappedLink (some "s3cret") 10 (by decide) (by decide)).2.1.mpr
    (by
      refine ⟨rfl, ?_, ?_, ?_⟩
      · intro t ht
        simp [cappedLink] at ht
      · intro m hm
        simp [cappedLink] at hm ⊢
        omega
      · intro p hp
        simp [cappedLink] at hp ⊢
        exact hp)

/-! ## Claim C8 — use-counter bound -/

/-- A link creation request carrying a negative usage cap. -/
def negCapInput : LinkInput :=
  { resourceType := "file", resourceId := "42", maxUses := some (-1) }

/-- The stored record `createShareableLink` produces for `negCapInput`. -/
def negCapLink : LinkRec :=
  { id := "L1", resourceType := "file", resourceId := "42", linkType := "view",
    isPublic := false, password := none, expiresAt := none, maxUses := some (-1),
    currentUses := 0, isActive := true }

/-- Claim C8 as stated is false at creation: nothing validates that a
supplied `maxUses` is positive, so creating a link with `maxUses = -1`
stores the cap and initialises `currentUses` to 0, which already violates
`currentUses <= maxUses`. -/
theorem use_counter_counterexample :
    createShareableLink "L1" negCapInput = .ok negCapLink ∧
    negCapLink.maxUses = some (-1) ∧ negCapLink.currentUses = 0 ∧
    ¬ negCapLink.currentUses ≤ -1 := by
  refine ⟨?_, by decide, by decide, by decide⟩
  rfl

/-- Claim C8, amended: for every shareable link whose `maxUses` is set to a
positive value, `currentUses <= maxUses` holds after creation — which
initialises the counter to 0 — and after every sequential resolution, since
resolution increments only when `currentUses < maxUses`; and a link whose
`expiresAt` is in the past fails resolution regardless of how many uses
remain. -/
theorem use_counter_amended :
    (∀ (linkId : String) (ld : LinkInput) (m : Int) (link : LinkRec), 0 < m →
       ld.maxUses = some m → createShareableLink linkId ld = .ok link →
       link.maxUses = some m ∧ link.currentUses = 0 ∧ link.currentUses ≤ m) ∧
    (∀ (link : LinkRec) (pw : Option String) (now : Int) (m : Int), 0 < m →
       link.maxUses = some m →
       ∀ l r, resolveSharedLinkApi (some link) pw now = .ok (l, r) →
         link.currentUses < m ∧ l.currentUses = link.currentUses + 1 ∧
         l.currentUses ≤ m ∧ l.maxUses = some m) ∧
    (∀ (link : LinkRec) (pw : Option String) (now : Int) (t : Int),
       link.expiresAt = some t → t < now →
       ∃ e, resolveSharedLinkApi (some link) pw now = .error e) := by
  refine ⟨?_, ?_, ?_⟩
  · intro linkId ld m link hm hld h
    unfold createShareableLink at h
    dsimp only [] at h
    split_ifs at h
    rw [Except.ok.injEq] at h
    subst h
    refine ⟨?_, rfl, le_of_lt hm⟩
    dsimp only []
    rw [hld]
    dsimp only []
    rw [if_neg (by omega)]
  · intro link pw now m hm hmax l r h
    unfold resolveSharedLinkApi at h
    dsimp only [] at h
    split_ifs at h with h1 h2 h3 h4
    have hcu : link.currentUses < m := by
      unfold linkExhausted at h3
      rw [hmax] at h3
      simp only [Bool.and_eq_true, decide_eq_true_eq, not_and] at h3
      have := h3 (by omega)
      omega
    rw [Except.ok.injEq, Prod.mk.injEq] at h
    have hl : l = { link with currentUses := link.currentUses + 1 } := h.1.symm
    subst hl
    exact ⟨hcu, rfl, by simpa using hcu, hmax⟩
  · intro link pw now t ht hlt
    by_cases ha : link.isActive = true
    · refine ⟨.expired, ?_⟩
      have he : linkExpired link now = true := by
        unfold linkExpired
        rw [ht]
        simpa using hlt
      simp [resolveSharedLinkApi, ha, he]
    · refine ⟨.notFoundOrInactive, ?_⟩
      simp [resolveSharedLinkApi, ha]

/-- A link creation request with a positive usage cap. -/
def posCapInput : LinkInput :=
  { resourceType := "file", resourceId := "7", maxUses := some 3 }

/-- The stored record `createShareableLink` produces for `posCapInput`. -/
def posCapLink : LinkRec :=
  { id := "L2", resourceType := "file", resourceId := "7", linkType := "view",
    isPublic := false, password := none, expiresAt := none, maxUses := some 3,
    currentUses := 0, isActive := true }

/-- Witness for claim C8's amended theorem: a freshly created link with cap 3
satisfies the counter bound. -/
theorem use_counter_amended_witness :
    posCapLink.maxUses = some 3 ∧ posCapLink.currentUses = 0 ∧
    posCapLink.currentUses ≤ 3 :=
  use_counter_amended.1 "L2" posCapInput 3 posCapLink (by decide) rfl rfl

/-! ## Claim C10 — browser route resolves protected links without a password -/

/-- Claim C10: the browser access route has no password check at all, so an
active, unexpired, non-exhausted link with a password set resolves and has
its use counter bumped no matter what the visitor supplies — while the API
route rejects any supplied value other than the stored password. -/
theorem browser_route_password_bypass (link : LinkRec) (p : String) (now : Int)
    (hp : link.password = some p) (hpne : p ≠ "")
    (ha : link.isActive = true) (he : linkExpired link now = false)
    (hu : linkExhausted link = false) :
    resolveSharedLinkBrowser (some link) now =
      .ok { link with currentUses := link.currentUses + 1 } ∧
    (∀ pw, pw ≠ some p →
       resolveSharedLinkApi (some link) pw now = .error .passwordRequired) := by
  refine ⟨?_, ?_⟩
  · simp [resolveSharedLinkBrowser, ha, he, hu]
  · intro pw hpw
    have hrej : linkPasswordRejects link pw = true := by
      unfold linkPasswordRejects
      rw [hp]
      simp [hpne, hpw]
    simp [resolveSharedLinkApi, ha, he, hu, hrej]

/-- A live password-protected link with no expiry and no usage cap. -/
def protectedLink : LinkRec :=
  { id := "LP", resourceType := "file", resourceId := "9", linkType := "view",
    password := some "secret", expiresAt := none, maxUses := none,
    currentUses := 0, isActive := true }

/-- Witness for claim C10's theorem: the browser route resolves
`protectedLink` without any password while the API route rejects the missing
password. -/
theorem browser_route_password_bypass_witness :
    resolveSharedLinkBrowser (some protectedLink) 5 =
      .ok { protectedLink with currentUses := protectedLink.currentUses + 1 } ∧
    resolveSharedLinkApi (some protectedLink) none 5 = .error .passwordRequired :=
  ⟨(browser_route_password_bypass protectedLink "secret" 5 rfl (by decide) rfl rfl rfl).1,
   (browser_route_password_bypass protectedLink "secret" 5 rfl (by decide) rfl rfl rfl).2
     none (by decide)⟩

end VPConnect
